import Mathlib

/-!
Shallow embedding of the core logic of the `obsidian-image-embedder` plugin
(`src/main.ts`).  JavaScript strings are modelled as Lean `String`s, with the
character-level algorithms carried out on `List Char` (`String.data`).  The
WHATWG `URL` constructor used by the source is modelled by `parseURL` below,
restricted to the two pieces of information the source reads from it: whether
parsing succeeds, and the `pathname` component.  Time (`new Date()`) is made
explicit: functions that read the clock take the ISO-8601 string that
`toISOString()` would have produced as an extra argument `now`.  The Obsidian
vault and the network are modelled as explicit data (`Vault`, `FetchResponse`)
threaded through the functions that use them.
-/

/-- Character class of the regex `[a-zA-Z0-9]` used by the filename cleaner
(ASCII-only, as in JavaScript). -/
def isAlnumChar (c : Char) : Bool :=
  (97 ≤ c.toNat && c.toNat ≤ 122) || (65 ≤ c.toNat && c.toNat ≤ 90) ||
    (48 ≤ c.toNat && c.toNat ≤ 57)

/-- ASCII letter, for the first character of a URL scheme. -/
def isAlphaChar (c : Char) : Bool :=
  (97 ≤ c.toNat && c.toNat ≤ 122) || (65 ≤ c.toNat && c.toNat ≤ 90)

/-- Characters allowed in a URL scheme after the first one. -/
def isSchemeChar (c : Char) : Bool :=
  isAlphaChar c || (48 ≤ c.toNat && c.toNat ≤ 57) || c == '+' || c == '-' || c == '.'

/-- JavaScript `s.split(sep)` for a single-character separator, on character
lists.  Like the JavaScript version it never returns an empty list, and it
keeps empty fields. -/
def splitOnChar (sep : Char) : List Char → List (List Char)
  | [] => [[]]
  | c :: cs =>
    if c == sep then [] :: splitOnChar sep cs
    else
      match splitOnChar sep cs with
      | [] => [[c]]
      | h :: t => (c :: h) :: t

/-- JavaScript `s.replace(pat, rep)` with a plain-string pattern: only the
first occurrence of `pat` is replaced. -/
def replaceFirst (pat rep : List Char) : List Char → List Char
  | [] => if pat = [] then rep else []
  | c :: cs =>
    if pat.isPrefixOf (c :: cs) then rep ++ (c :: cs).drop pat.length
    else c :: replaceFirst pat rep cs

/-- The regex substitution `replace(/[^a-zA-Z0-9]+/g, '-')`: every maximal run
of characters outside `[a-zA-Z0-9]` becomes a single hyphen. -/
def collapseNonAlnum : List Char → List Char
  | [] => []
  | c :: cs =>
    if isAlnumChar c then c :: collapseNonAlnum cs
    else
      match cs with
      | [] => ['-']
      | d :: _ => if isAlnumChar d then '-' :: collapseNonAlnum cs else collapseNonAlnum cs

/-- The regex substitution replacing the global pattern `-+` with `-`: every
run of hyphens becomes a single hyphen. -/
def collapseHyphens : List Char → List Char
  | [] => []
  | [c] => [c]
  | c :: d :: cs =>
    if c == '-' && d == '-' then collapseHyphens (d :: cs)
    else c :: collapseHyphens (d :: cs)

/-- The regex substitution `replace(/^-+|-+$/g, '')`: strip the leading and
the trailing run of hyphens. -/
def stripEdgeHyphens (l : List Char) : List Char :=
  (((l.dropWhile (· == '-')).reverse.dropWhile (· == '-'))).reverse

/-- The regex substitution replacing the pattern `-+$` with the empty string:
strip the trailing run of hyphens. -/
def stripTrailingHyphens (l : List Char) : List Char :=
  ((l.reverse.dropWhile (· == '-'))).reverse

/-- The result of URL parsing, restricted to the components the source
reads. -/
structure URLRecord where
  scheme : String
  pathname : String
deriving DecidableEq

/-- The schemes the WHATWG standard calls special (they get host parsing and
a non-empty default path). -/
def specialSchemes : List String := ["ftp", "file", "http", "https", "ws", "wss"]

/-- Model of the WHATWG `new URL(url)` constructor used by the source,
restricted to what the source observes: success or failure, and the `pathname`
component.  Covered: scheme validation (letter followed by letters, digits,
`+`, `-`, `.`, then a colon — anything else fails), authority skipping, the
path taken up to the first `?` or `#`, the `/` default path and non-empty-host
requirement for special schemes, and opaque paths for non-special schemes.
Not modelled: whitespace stripping, percent-encoding normalisation,
dot-segment removal and host syntax checks; the inputs examined by the
theorems below contain none of these. -/
def parseURL (url : String) : Option URLRecord :=
  let cs := url.data
  let schemePart := cs.takeWhile (fun c => !(c == ':'))
  if schemePart.length == cs.length then none
  else
    match schemePart with
    | [] => none
    | c0 :: rest =>
      if !(isAlphaChar c0 && rest.all isSchemeChar) then none
      else
        let scheme := ((c0 :: rest).map Char.toLower).asString
        let after := cs.drop (schemePart.length + 1)
        let special := specialSchemes.contains scheme
        if after.take 2 == ['/', '/'] || (special && scheme ≠ "file") then
          let afterMarker :=
            if after.take 2 == ['/', '/'] then after.drop 2
            else after.dropWhile (fun c => c == '/')
          let authority := afterMarker.takeWhile (fun c => !(c == '/' || c == '?' || c == '#'))
          if special && scheme ≠ "file" && authority = [] then none
          else
            let rest2 := afterMarker.drop authority.length
            let path := rest2.takeWhile (fun c => !(c == '?' || c == '#'))
            let pathname := if path = [] && special then ['/'] else path
            some ⟨scheme, pathname.asString⟩
        else if scheme = "file" then
          let p := after.takeWhile (fun c => !(c == '?' || c == '#'))
          let pathname := if p.take 1 == ['/'] then p else '/' :: p
          some ⟨scheme, pathname.asString⟩
        else
          let path := after.takeWhile (fun c => !(c == '?' || c == '#'))
          some ⟨scheme, path.asString⟩

/-- The fixed image extension list of `isImageUrl` (`src/main.ts`, line 27). -/
def imageExtensions : List String :=
  [".jpg", ".jpeg", ".png", ".gif", ".webp", ".svg", ".bmp", ".tiff"]

/-- `isImageUrl` (`src/main.ts`, lines 25–40): parse the URL; on failure
return `false`, otherwise check whether the lower-cased pathname ends with one
of the image extensions. -/
def isImageUrl (url : String) : Bool :=
  match parseURL url with
  | some parsedUrl =>
      imageExtensions.any (fun ext =>
        ext.data.isSuffixOf (parsedUrl.pathname.data.map Char.toLower))
  | none => false

/-- The plugin settings record (`src/main.ts`, lines 5–11). -/
structure ImageEmbedderSettings where
  confirmBeforeEmbed : Bool
  showFilePath : Bool
  attachmentFolder : String
  filenameFormat : String
  useTimestamp : Bool
deriving DecidableEq

/-- `DEFAULT_SETTINGS` (`src/main.ts`, lines 13–19). -/
def DEFAULT_SETTINGS : ImageEmbedderSettings :=
  { confirmBeforeEmbed := true
    showFilePath := false
    attachmentFolder := ""
    filenameFormat := "{name}-{timestamp}"
    useTimestamp := true }

/-- The clipboard payload: the `DataTransfer` object as the source uses it.
`getData("text/plain")` returns `textPlain`; the DOM returns the empty string
when no plain-text representation exists. -/
structure ClipboardData where
  textPlain : String
deriving DecidableEq

/-- `getUrlFromClipboard` (`src/main.ts`, lines 43–57): `null` clipboard data
gives `null`; an empty plain-text payload gives `null`; otherwise the text is
returned unchanged when it parses as a URL and `null` when it does not. -/
def getUrlFromClipboard : Option ClipboardData → Option String
  | none => none
  | some clipboardData =>
    let url := clipboardData.textPlain
    if url = "" then none
    else
      match parseURL url with
      | some _ => some url
      | none => none

/-- Step 4 of the filename algorithm (`src/main.ts`, lines 79–82): replace
every run of non-alphanumeric characters by one hyphen, strip leading and
trailing hyphens, lower-case. -/
def cleanFilename (stem : List Char) : List Char :=
  (stripEdgeHyphens (collapseNonAlnum stem)).map Char.toLower

/-- The placeholder substitution chain (`src/main.ts`, lines 94–97): plain
JavaScript `replace`, so each of `{name}`, `{timestamp}`, `{date}` is replaced
at its first occurrence only. -/
def substitutePlaceholders (fmt : String) (name timestamp date : List Char) : List Char :=
  replaceFirst "{date}".data date
    (replaceFirst "{timestamp}".data timestamp
      (replaceFirst "{name}".data name fmt.data))

/-- The extension computation of the filename algorithm (`src/main.ts`,
lines 69–70): `filename.split('.').pop()?.toLowerCase() || 'jpg'`.  The `pop`
of a `split` result is its last element (never `undefined`), so the `'jpg'`
default applies exactly when that last element is the empty string. -/
def extractExtension (filename : List Char) : List Char :=
  let extRaw := ((splitOnChar '.' filename).getLastD []).map Char.toLower
  if extRaw = [] then "jpg".data else extRaw

/-- `generateUserFriendlyFilename` (`src/main.ts`, lines 60–107).  `now` is
the string `new Date().toISOString()` would have produced; the function
returns `none` exactly when `new URL(url)` would have thrown. -/
def generateUserFriendlyFilename (url : String) (settings : ImageEmbedderSettings)
    (now : String) : Option String :=
  match parseURL url with
  | none => none
  | some urlObj =>
    let seg := (splitOnChar '/' urlObj.pathname.data).getLastD []
    let filename0 := if seg = [] then "image".data else seg
    let filename1 := (splitOnChar '?' filename0).headD []
    let filename := (splitOnChar '#' filename1).headD []
    let extension := extractExtension filename
    let stem := filename.take (filename.length - (extension.length + 1))
    let cleaned0 := cleanFilename stem
    let cleaned := if cleaned0 = [] then "image".data else cleaned0
    let timestamp :=
      (now.data.map (fun c => if c == ':' || c == '.' then '-' else c)).take 19
    let date := (splitOnChar 'T' now.data).headD []
    let substituted :=
      substitutePlaceholders settings.filenameFormat cleaned
        (if settings.useTimestamp then timestamp else []) date
    let tidied := stripTrailingHyphens (collapseHyphens substituted)
    let finalFilename := if tidied.all Char.isWhitespace then cleaned else tidied
    some ((finalFilename ++ '.' :: extension).asString)

/-- The vault as the source touches it: the set of folder paths and the
binary files written, newest first. -/
structure Vault where
  folders : List String
  files : List (String × List Nat)
deriving DecidableEq

/-- `Vault.getAbstractFileByPath` returns something exactly when a folder or a
file exists at the path. -/
def Vault.hasEntry (vault : Vault) (path : String) : Bool :=
  vault.folders.contains path || (vault.files.map Prod.fst).contains path

/-- `vault.createBinary(path, data)` as state transformation. -/
def Vault.createBinary (vault : Vault) (path : String) (body : List Nat) : Vault :=
  { vault with files := (path, body) :: vault.files }

/-- `ensureAttachmentFolder` (`src/main.ts`, lines 110–116): create the folder
when `getAbstractFileByPath` finds nothing at the path. -/
def ensureAttachmentFolder (vault : Vault) (folderPath : String) : Vault :=
  if vault.hasEntry folderPath then vault
  else { vault with folders := folderPath :: vault.folders }

/-- One HTTP response as the source reads it: the `ok` flag, the status text
and the body bytes. -/
structure FetchResponse where
  ok : Bool
  statusText : String
  body : List Nat
deriving DecidableEq

/-- `downloadAndSaveImage` (`src/main.ts`, lines 119–143).  The network and
the storage write are explicit inputs: `fetchResult` is the outcome of
`fetch(url)` (`Except.error` for a transport failure), and `writeOutcome` is
the outcome `vault.createBinary` would have for this call.  The function
returns the final vault state together with the saved path or the error the
source would throw; the source's `catch` block only logs and rethrows, so
errors pass through unchanged. -/
def downloadAndSaveImage (vault : Vault) (url folderPath : String)
    (settings : ImageEmbedderSettings) (fetchResult : Except String FetchResponse)
    (writeOutcome : Except String Unit) (now : String) :
    Vault × Except String String :=
  let vault1 := ensureAttachmentFolder vault folderPath
  match generateUserFriendlyFilename url settings now with
  | none => (vault1, Except.error "Invalid URL")
  | some filename =>
    let fullPath := folderPath ++ "/" ++ filename
    match fetchResult with
    | Except.error e => (vault1, Except.error e)
    | Except.ok response =>
      if !response.ok then
        (vault1, Except.error ("Failed to download image: " ++ response.statusText))
      else
        match writeOutcome with
        | Except.error e => (vault1, Except.error e)
        | Except.ok _ => (vault1.createBinary fullPath response.body, Except.ok fullPath)

/-- The user-visible actions of the paste handler, in the order they
happen. -/
inductive UIEvent where
  | preventDefault
  | confirmPrompt
  | insertText (s : String)
  | notice (msg : String)
deriving DecidableEq

/-- The `editor-paste` handler registered in `onload` (`src/main.ts`,
lines 160–219), as a function from its inputs to the final vault state and
the ordered list of user-visible actions.  `confirmAnswer` is the button the
user would press if the confirmation notice is shown. -/
def pasteHandler (clipboard : Option ClipboardData) (settings : ImageEmbedderSettings)
    (confirmAnswer : Bool) (vault : Vault) (fetchResult : Except String FetchResponse)
    (writeOutcome : Except String Unit) (now : String) : Vault × List UIEvent :=
  match getUrlFromClipboard clipboard with
  | none => (vault, [])
  | some url =>
    if !isImageUrl url then (vault, [])
    else
      let ev0 := [UIEvent.preventDefault]
      let (ev1, proceed) :=
        if settings.confirmBeforeEmbed then (ev0 ++ [UIEvent.confirmPrompt], confirmAnswer)
        else (ev0, true)
      if !proceed then (vault, ev1)
      else
        match downloadAndSaveImage vault url settings.attachmentFolder settings
            fetchResult writeOutcome now with
        | (vault2, Except.ok savedPath) =>
          (vault2, ev1 ++ [UIEvent.insertText ("![[" ++ savedPath ++ "]]"),
            UIEvent.notice (if settings.showFilePath
              then "Image saved and embedded: " ++ savedPath
              else "Image saved and embedded successfully!")])
        | (vault2, Except.error _) =>
          (vault2, ev1 ++ [UIEvent.notice
            "Failed to download and embed image. Check console for details."])

/-! ### General lemmas about the string helpers -/

/-- A hyphen is not alphanumeric, as a `BEq` fact. -/
theorem alnum_ne_hyphen {c : Char} (h : isAlnumChar c = true) : (c == '-') = false := by
  cases hc : c == '-'
  · rfl
  · have : c = '-' := by simpa using hc
    subst this
    exact absurd h (by decide)

/-- `dropWhile` on hyphens is the identity when the head is not a hyphen. -/
theorem dropWhile_hyphen_eq_self {l : List Char}
    (h : ∀ c, l.head? = some c → (c == '-') = false) :
    l.dropWhile (· == '-') = l := by
  cases l with
  | nil => rfl
  | cons c cs => exact List.dropWhile_cons_of_neg (by simp [h c rfl])

/-- `replaceFirst` leaves a string without any occurrence of the pattern
unchanged. -/
theorem replaceFirst_of_not_infix {pat : List Char} (rep : List Char) :
    ∀ {s : List Char}, ¬ pat <:+: s → replaceFirst pat rep s = s := by
  intro s
  induction s with
  | nil =>
    intro h
    have hne : pat ≠ [] := by rintro rfl; exact h List.nil_infix
    simp [replaceFirst, hne]
  | cons c cs ih =>
    intro h
    have hpre : pat.isPrefixOf (c :: cs) = false := by
      cases hp : pat.isPrefixOf (c :: cs)
      · rfl
      · exact absurd (List.isPrefixOf_iff_prefix.mp hp).isInfix h
    have htail : ¬ pat <:+: cs := fun hi => h (List.infix_cons hi)
    simp [replaceFirst, hpre, ih htail]

/-- A pattern starting with `{` cannot occur inside `name ++ suff` when
`name` is brace-free and the pattern does not occur in `suff`. -/
theorem not_infix_append_of_head_brace {pat suff : List Char}
    (hp : pat.head? = some '{') (hs : ¬ pat <:+: suff) :
    ∀ name : List Char, '{' ∉ name → ¬ pat <:+: name ++ suff := by
  intro name
  induction name with
  | nil => intro _ h; exact hs (by simpa using h)
  | cons c cs ih =>
    intro hmem hinf
    rw [List.cons_append] at hinf
    rcases List.infix_cons_iff.mp hinf with hpre | htail
    · obtain ⟨t, ht⟩ := hpre
      cases pat with
      | nil => simp at hp
      | cons p ps =>
        have hpc : p = '{' := by simpa using hp
        rw [List.cons_append] at ht
        injection ht with h1 _
        exact hmem (by simp [← h1, hpc])
    · exact ih (fun hm => hmem (List.mem_cons_of_mem _ hm)) htail

/-- `splitOnChar` never returns the empty list. -/
theorem splitOnChar_ne_nil (sep : Char) : ∀ l : List Char, splitOnChar sep l ≠ [] := by
  intro l
  cases l with
  | nil => simp [splitOnChar]
  | cons c cs =>
    by_cases hc : (c == sep) = true
    · simp [splitOnChar, hc]
    · simp only [splitOnChar, hc]
      cases h : splitOnChar sep cs <;> simp

/-- Splitting a list that does not contain the separator gives that list as
the single field. -/
theorem splitOnChar_of_not_mem {sep : Char} :
    ∀ {l : List Char}, sep ∉ l → splitOnChar sep l = [l] := by
  intro l
  induction l with
  | nil => intro _; rfl
  | cons c cs ih =>
    intro h
    have hc : (c == sep) = false := by
      cases hcc : c == sep
      · rfl
      · exact absurd (by simpa using hcc : c = sep) (fun he => h (he ▸ List.mem_cons_self c cs))
    simp [splitOnChar, hc, ih (fun hm => h (List.mem_cons_of_mem _ hm))]

/-- Splitting a list containing the separator yields at least two fields. -/
theorem splitOnChar_two_fields {sep : Char} :
    ∀ {l : List Char}, sep ∈ l → ∃ x y t, splitOnChar sep l = x :: y :: t := by
  intro l
  induction l with
  | nil => intro h; exact absurd h (List.not_mem_nil sep)
  | cons c cs ih =>
    intro h
    by_cases hc : (c == sep) = true
    · obtain ⟨y, t, hyt⟩ : ∃ y t, splitOnChar sep cs = y :: t := by
        cases hs : splitOnChar sep cs with
        | nil => exact absurd hs (splitOnChar_ne_nil sep cs)
        | cons y t => exact ⟨y, t, rfl⟩
      exact ⟨[], y, t, by simp [splitOnChar, hc, hyt]⟩
    · have hcs : sep ∈ cs := by
        rcases List.mem_cons.mp h with he | hm
        · exact absurd (by simp [he.symm]) hc
        · exact hm
      obtain ⟨x, y, t, hxyt⟩ := ih hcs
      exact ⟨c :: x, y, t, by simp [splitOnChar, hc, hxyt]⟩

/-- The last field of a split sees only the part after the last separator:
prepending `a ++ sep` does not change it. -/
theorem getLast?_splitOnChar_append (sep : Char) :
    ∀ (a b : List Char),
      (splitOnChar sep (a ++ sep :: b)).getLast? = (splitOnChar sep b).getLast? := by
  intro a
  induction a with
  | nil =>
    intro b
    obtain ⟨y, t, hyt⟩ : ∃ y t, splitOnChar sep b = y :: t := by
      cases hs : splitOnChar sep b with
      | nil => exact absurd hs (splitOnChar_ne_nil sep b)
      | cons y t => exact ⟨y, t, rfl⟩
    simp [splitOnChar, hyt]
  | cons c cs ih =>
    intro b
    by_cases hc : (c == sep) = true
    · obtain ⟨y, t, hyt⟩ : ∃ y t, splitOnChar sep (cs ++ sep :: b) = y :: t := by
        cases hs : splitOnChar sep (cs ++ sep :: b) with
        | nil => exact absurd hs (splitOnChar_ne_nil sep _)
        | cons y t => exact ⟨y, t, rfl⟩
      rw [List.cons_append]
      simp only [splitOnChar, hc, if_true]
      rw [← ih b]
      simp [hyt]
    · obtain ⟨x, y, t, hxyt⟩ := @splitOnChar_two_fields sep (cs ++ sep :: b)
        (by simp)
      rw [List.cons_append]
      simp only [splitOnChar, hc]
      rw [hxyt, ← ih b, hxyt]
      simp

/-- `collapseNonAlnum` passes an all-alphanumeric prefix through untouched. -/
theorem collapseNonAlnum_append_alnum :
    ∀ {a : List Char} (l : List Char), a.all isAlnumChar = true →
      collapseNonAlnum (a ++ l) = a ++ collapseNonAlnum l := by
  intro a
  induction a with
  | nil => intro l _; rfl
  | cons c cs ih =>
    intro l h
    have hc : isAlnumChar c = true := by
      have := List.all_eq_true.mp h c (List.mem_cons_self c cs)
      simpa using this
    have hcs : cs.all isAlnumChar = true := by
      refine List.all_eq_true.mpr ?_
      intro x hx
      exact List.all_eq_true.mp h x (List.mem_cons_of_mem _ hx)
    simp [collapseNonAlnum, hc, ih l hcs]

/-- `collapseNonAlnum` fixes an all-alphanumeric list. -/
theorem collapseNonAlnum_of_all_alnum {a : List Char} (h : a.all isAlnumChar = true) :
    collapseNonAlnum a = a := by
  have h2 := @collapseNonAlnum_append_alnum a [] h
  simpa [collapseNonAlnum] using h2

/-- `extractExtension` on a last segment without a dot returns the whole
lower-cased segment, not the `jpg` default. -/
theorem extractExtension_no_dot {filename : List Char}
    (hne : filename ≠ []) (hdot : '.' ∉ filename) :
    extractExtension filename = filename.map Char.toLower := by
  unfold extractExtension
  rw [splitOnChar_of_not_mem hdot]
  simp only [List.getLastD]
  have : filename.map Char.toLower ≠ [] := by
    intro h
    exact hne (List.map_eq_nil_iff.mp h)
  simp [this]

/-- `extractExtension` takes the substring after the final dot, lower-cased,
whenever that substring is non-empty. -/
theorem extractExtension_after_last_dot {a b : List Char}
    (hne : b ≠ []) (hdot : '.' ∉ b) :
    extractExtension (a ++ '.' :: b) = b.map Char.toLower := by
  unfold extractExtension
  have hlast : (splitOnChar '.' (a ++ '.' :: b)).getLast? = some b := by
    rw [getLast?_splitOnChar_append, splitOnChar_of_not_mem hdot]
    rfl
  have hD : (splitOnChar '.' (a ++ '.' :: b)).getLastD [] = b := by
    rw [List.getLastD_eq_getLast?, hlast]
    rfl
  rw [hD]
  have : b.map Char.toLower ≠ [] := by
    intro h
    exact hne (List.map_eq_nil_iff.mp h)
  simp [this]

/-- `ensureAttachmentFolder` never touches the files. -/
theorem ensureAttachmentFolder_files (vault : Vault) (folderPath : String) :
    (ensureAttachmentFolder vault folderPath).files = vault.files := by
  unfold ensureAttachmentFolder
  split <;> rfl

/-- After `ensureAttachmentFolder`, the folder path has an entry; when it was
absent it is now in the folder list. -/
theorem ensureAttachmentFolder_creates {vault : Vault} {folderPath : String}
    (h : vault.hasEntry folderPath = false) :
    (ensureAttachmentFolder vault folderPath).folders.contains folderPath = true := by
  unfold ensureAttachmentFolder
  rw [h]
  simp

/-- The vault component of `downloadAndSaveImage` always goes through
`ensureAttachmentFolder`, whose folders survive into every outcome. -/
theorem downloadAndSaveImage_folders (vault : Vault) (url folderPath : String)
    (settings : ImageEmbedderSettings) (fetchResult : Except String FetchResponse)
    (writeOutcome : Except String Unit) (now : String) :
    (downloadAndSaveImage vault url folderPath settings fetchResult writeOutcome now).1.folders
      = (ensureAttachmentFolder vault folderPath).folders := by
  unfold downloadAndSaveImage
  cases generateUserFriendlyFilename url settings now with
  | none => rfl
  | some filename =>
    cases fetchResult with
    | error e => rfl
    | ok response =>
      by_cases hok : response.ok = true
      · cases writeOutcome with
        | error e => simp [hok, Vault.createBinary]
        | ok u => simp [hok, Vault.createBinary]
      · have : response.ok = false := by
          cases h : response.ok
          · rfl
          · exact absurd h hok
        simp [this]

/-- A value produced by `getLast?` is a member of the list. -/
theorem mem_of_getLast?_eq {l : List Char} {c : Char} (h : l.getLast? = some c) : c ∈ l := by
  obtain ⟨hne, hc⟩ := List.mem_getLast?_eq_getLast (Option.mem_def.mpr h)
  exact hc ▸ List.getLast_mem hne

/-- The cleaned form of a stem `a%20b` with alphanumeric `a ≠ []` and `b`:
the percent sign alone becomes a hyphen and the digits stay, so the residue
`-20` appears literally. -/
theorem cleanFilename_percent_eq {a b : List Char} (hne : a ≠ [])
    (ha : a.all isAlnumChar = true) (hb : b.all isAlnumChar = true) :
    cleanFilename (a ++ '%' :: '2' :: '0' :: b)
      = (a ++ '-' :: '2' :: '0' :: b).map Char.toLower := by
  have hall : ('2' :: '0' :: b).all isAlnumChar = true := by
    simp only [List.all_cons, hb, Bool.and_true]
    decide
  have h1 : collapseNonAlnum ('%' :: '2' :: '0' :: b) = '-' :: '2' :: '0' :: b := by
    have h2 : collapseNonAlnum ('2' :: '0' :: b) = '2' :: '0' :: b :=
      collapseNonAlnum_of_all_alnum hall
    rw [show collapseNonAlnum ('%' :: '2' :: '0' :: b)
        = '-' :: collapseNonAlnum ('2' :: '0' :: b) from rfl, h2]
  have hcol : collapseNonAlnum (a ++ '%' :: '2' :: '0' :: b)
      = a ++ '-' :: '2' :: '0' :: b := by
    rw [collapseNonAlnum_append_alnum _ ha, h1]
  have hh : ∀ ch, (a ++ '-' :: '2' :: '0' :: b).head? = some ch → (ch == '-') = false := by
    intro ch hch
    cases a with
    | nil => exact absurd rfl hne
    | cons c cs =>
      have hc : isAlnumChar c = true := by
        have := List.all_eq_true.mp ha c (List.mem_cons_self c cs)
        simpa using this
      have : ch = c := by
        rw [List.cons_append] at hch
        simpa using hch.symm
      exact this ▸ alnum_ne_hyphen hc
  have ht : ∀ ch, (a ++ '-' :: '2' :: '0' :: b).reverse.head? = some ch →
      (ch == '-') = false := by
    intro ch hch
    rw [List.head?_reverse, List.getLast?_append] at hch
    have hlast : ('-' :: '2' :: '0' :: b).getLast? = ('0' :: b).getLast? := by
      rw [List.getLast?_cons_cons, List.getLast?_cons_cons]
    obtain ⟨c', hc'⟩ : ∃ c', ('0' :: b).getLast? = some c' := by
      cases hgl : ('0' :: b).getLast? with
      | none => exact absurd hgl (by simp)
      | some c' => exact ⟨c', rfl⟩
    have hmem : c' ∈ '0' :: b := mem_of_getLast?_eq hc'
    have halnum : isAlnumChar c' = true := by
      rcases List.mem_cons.mp hmem with he | hm
      · subst he; decide
      · have := List.all_eq_true.mp hb c' hm
        simpa using this
    rw [hlast, hc'] at hch
    have : ch = c' := by simpa using hch.symm
    exact this ▸ alnum_ne_hyphen halnum
  unfold cleanFilename stripEdgeHyphens
  rw [hcol, dropWhile_hyphen_eq_self hh, dropWhile_hyphen_eq_self ht, List.reverse_reverse]

/-! ### The claims -/

/-- C1: `isImageUrl` is total over strings; it returns `false` for every
string that fails URL parsing, and for every string that parses as an
absolute URL it returns `true` exactly when the lower-cased path component
ends with one of the eight fixed image extensions (query and fragment play no
part, as only the path is examined). -/
theorem isImageUrl_classification (s : String) :
    (parseURL s = none → isImageUrl s = false)
    ∧ ∀ u, parseURL s = some u →
        (isImageUrl s = true ↔
          ∃ ext ∈ imageExtensions, ext.data <:+ u.pathname.data.map Char.toLower) := by
  constructor
  · intro h
    simp [isImageUrl, h]
  · intro u hu
    simp [isImageUrl, hu, List.any_eq_true, List.isSuffixOf_iff_suffix]

/-- Witness for C1 at concrete inputs. -/
theorem isImageUrl_classification_witness :
    isImageUrl "not-a-url" = false ∧ isImageUrl "https://example.com/image.jpg" = true := by
  constructor
  · exact (isImageUrl_classification "not-a-url").1 rfl
  · exact ((isImageUrl_classification "https://example.com/image.jpg").2
      ⟨"https", "/image.jpg"⟩ rfl).mpr ⟨".jpg", by decide, by decide⟩

/-- C9: `isImageUrl` puts no restriction on the scheme: every string that
parses — under any scheme — with a path ending in a recognized image
extension classifies as an image URL. -/
theorem isImageUrl_any_scheme (s : String) (u : URLRecord)
    (hu : parseURL s = some u)
    (hext : ∃ ext ∈ imageExtensions, ext.data <:+ u.pathname.data.map Char.toLower) :
    isImageUrl s = true := by
  rw [((isImageUrl_classification s).2 u hu)]
  exact hext

/-- Witness for C9: `file:` and `ftp:` URLs pass the classification gate. -/
theorem isImageUrl_any_scheme_witness :
    isImageUrl "file:///album/pic.PNG" = true ∧ isImageUrl "ftp://host/photo.jpeg" = true := by
  constructor
  · exact isImageUrl_any_scheme _ ⟨"file", "/album/pic.PNG"⟩ rfl ⟨".png", by decide, by decide⟩
  · exact isImageUrl_any_scheme _ ⟨"ftp", "/photo.jpeg"⟩ rfl ⟨".jpeg", by decide, by decide⟩

/-- C8: `getUrlFromClipboard` returns `none` for absent clipboard data and
for an empty plain-text payload; a payload whose text parses as a URL comes
back unchanged, and one whose text fails parsing gives `none`. -/
theorem getUrlFromClipboard_spec :
    getUrlFromClipboard none = none
    ∧ (∀ d : ClipboardData, d.textPlain = "" → getUrlFromClipboard (some d) = none)
    ∧ (∀ (d : ClipboardData) (u : URLRecord), parseURL d.textPlain = some u →
        getUrlFromClipboard (some d) = some d.textPlain)
    ∧ (∀ d : ClipboardData, parseURL d.textPlain = none →
        getUrlFromClipboard (some d) = none) := by
  refine ⟨rfl, ?_, ?_, ?_⟩
  · intro d h
    simp [getUrlFromClipboard, h]
  · intro d u hu
    have hne : ¬ d.textPlain = "" := by
      intro h
      rw [h] at hu
      exact absurd hu (by simp [show parseURL "" = none from rfl])
    simp [getUrlFromClipboard, hne, hu]
  · intro d h
    by_cases hne : d.textPlain = ""
    · simp [getUrlFromClipboard, hne]
    · simp [getUrlFromClipboard, hne, h]

/-- Witness for C8 at concrete payloads. -/
theorem getUrlFromClipboard_spec_witness :
    getUrlFromClipboard (some ⟨""⟩) = none
    ∧ getUrlFromClipboard (some ⟨"https://example.com/image.jpg"⟩)
        = some "https://example.com/image.jpg"
    ∧ getUrlFromClipboard (some ⟨"not-a-url"⟩) = none := by
  refine ⟨?_, ?_, ?_⟩
  · exact getUrlFromClipboard_spec.2.1 ⟨""⟩ rfl
  · exact getUrlFromClipboard_spec.2.2.1 ⟨"https://example.com/image.jpg"⟩
      ⟨"https", "/image.jpg"⟩ rfl
  · exact getUrlFromClipboard_spec.2.2.2 ⟨"not-a-url"⟩ rfl

/-- C3: with template `{name}-{timestamp}` and the timestamp disabled, the
URL `https://example.com/image.jpg` produces exactly `image.jpg`: the
`{timestamp}` placeholder becomes empty, the hyphen run collapses and the
trailing hyphen is stripped before the extension is appended.  The statement
holds for every clock value `now`. -/
theorem generateFilename_timestamp_disabled (now : String) :
    generateUserFriendlyFilename "https://example.com/image.jpg"
      { DEFAULT_SETTINGS with useTimestamp := false } now = some "image.jpg" := rfl

/-- C2: when the HTTP GET comes back with a non-success status, the call
fails with an error whose message contains the status text, and the files of
the vault are untouched (no write of the body is attempted). -/
theorem downloadAndSaveImage_http_error
    (vault : Vault) (url folderPath : String) (settings : ImageEmbedderSettings)
    (response : FetchResponse) (writeOutcome : Except String Unit) (now fn : String)
    (hgen : generateUserFriendlyFilename url settings now = some fn)
    (hok : response.ok = false) :
    (downloadAndSaveImage vault url folderPath settings (Except.ok response)
        writeOutcome now).2
      = Except.error ("Failed to download image: " ++ response.statusText)
    ∧ (∃ pre, "Failed to download image: " ++ response.statusText
        = pre ++ response.statusText)
    ∧ (downloadAndSaveImage vault url folderPath settings (Except.ok response)
        writeOutcome now).1.files = vault.files := by
  refine ⟨?_, ⟨"Failed to download image: ", rfl⟩, ?_⟩
  · simp [downloadAndSaveImage, hgen, hok]
  · simp [downloadAndSaveImage, hgen, hok, ensureAttachmentFolder_files]

/-- Witness for C2: a 404 with status text `Not Found`. -/
theorem downloadAndSaveImage_http_error_witness :
    (downloadAndSaveImage ⟨[], []⟩ "https://example.com/image.jpg" "attachments"
        DEFAULT_SETTINGS (Except.ok ⟨false, "Not Found", []⟩) (Except.ok ())
        "2025-01-02T03:04:05.678Z").2
      = Except.error ("Failed to download image: " ++ "Not Found")
    ∧ (downloadAndSaveImage ⟨[], []⟩ "https://example.com/image.jpg" "attachments"
        DEFAULT_SETTINGS (Except.ok ⟨false, "Not Found", []⟩) (Except.ok ())
        "2025-01-02T03:04:05.678Z").1.files = [] := by
  have h := downloadAndSaveImage_http_error ⟨[], []⟩ "https://example.com/image.jpg"
    "attachments" DEFAULT_SETTINGS ⟨false, "Not Found", []⟩ (Except.ok ())
    "2025-01-02T03:04:05.678Z" "image-2025-01-02T03-04-05.jpg" rfl rfl
  exact ⟨h.1, h.2.2⟩

/-- C10: the folder check and creation happen before the filename generation
and the fetch, so when the folder was absent it is present in the final vault
state whatever the outcome, and each later failure (network transport error,
non-success status, write failure) propagates as the error of the call. -/
theorem downloadAndSaveImage_folder_persists
    (vault : Vault) (url folderPath : String) (settings : ImageEmbedderSettings)
    (fetchResult : Except String FetchResponse) (writeOutcome : Except String Unit)
    (now fn : String)
    (habsent : vault.hasEntry folderPath = false)
    (hgen : generateUserFriendlyFilename url settings now = some fn) :
    (downloadAndSaveImage vault url folderPath settings fetchResult writeOutcome
        now).1.folders.contains folderPath = true
    ∧ (∀ e, fetchResult = Except.error e →
        (downloadAndSaveImage vault url folderPath settings fetchResult writeOutcome now).2
          = Except.error e)
    ∧ (∀ response, fetchResult = Except.ok response → response.ok = false →
        (downloadAndSaveImage vault url folderPath settings fetchResult writeOutcome now).2
          = Except.error ("Failed to download image: " ++ response.statusText))
    ∧ (∀ response e, fetchResult = Except.ok response → response.ok = true →
        writeOutcome = Except.error e →
        (downloadAndSaveImage vault url folderPath settings fetchResult writeOutcome now).2
          = Except.error e) := by
  refine ⟨?_, ?_, ?_, ?_⟩
  · rw [downloadAndSaveImage_folders]
    exact ensureAttachmentFolder_creates habsent
  · intro e he
    subst he
    simp [downloadAndSaveImage, hgen]
  · intro response hr hok
    subst hr
    simp [downloadAndSaveImage, hgen, hok]
  · intro response e hr hok hw
    subst hr
    subst hw
    simp [downloadAndSaveImage, hgen, hok]

/-- Witness for C10: a transport failure after the folder was created. -/
theorem downloadAndSaveImage_folder_persists_witness :
    (downloadAndSaveImage ⟨[], []⟩ "https://example.com/image.jpg" "attachments"
        DEFAULT_SETTINGS (Except.error "network down") (Except.ok ())
        "2025-01-02T03:04:05.678Z").1.folders.contains "attachments" = true
    ∧ (downloadAndSaveImage ⟨[], []⟩ "https://example.com/image.jpg" "attachments"
        DEFAULT_SETTINGS (Except.error "network down") (Except.ok ())
        "2025-01-02T03:04:05.678Z").2 = Except.error "network down" := by
  have h := downloadAndSaveImage_folder_persists ⟨[], []⟩ "https://example.com/image.jpg"
    "attachments" DEFAULT_SETTINGS (Except.error "network down") (Except.ok ())
    "2025-01-02T03:04:05.678Z" "image-2025-01-02T03-04-05.jpg" rfl rfl
  exact ⟨h.1, h.2.1 "network down" rfl⟩

/-- C4: with confirmation enabled, answering no to the prompt ends the paste
operation with the default behavior already suppressed and nothing inserted:
the trace is exactly `preventDefault` followed by the prompt, the vault is
untouched, and no `insertText` action occurs. -/
theorem pasteHandler_confirm_declined
    (clipboard : Option ClipboardData) (settings : ImageEmbedderSettings)
    (vault : Vault) (fetchResult : Except String FetchResponse)
    (writeOutcome : Except String Unit) (now url : String)
    (hurl : getUrlFromClipboard clipboard = some url)
    (himg : isImageUrl url = true)
    (hconf : settings.confirmBeforeEmbed = true) :
    pasteHandler clipboard settings false vault fetchResult writeOutcome now
      = (vault, [UIEvent.preventDefault, UIEvent.confirmPrompt])
    ∧ ∀ s, UIEvent.insertText s
        ∉ (pasteHandler clipboard settings false vault fetchResult writeOutcome now).2 := by
  have h : pasteHandler clipboard settings false vault fetchResult writeOutcome now
      = (vault, [UIEvent.preventDefault, UIEvent.confirmPrompt]) := by
    simp [pasteHandler, hurl, himg, hconf]
  refine ⟨h, ?_⟩
  intro s
  rw [h]
  simp

/-- Witness for C4 at a concrete image-URL paste. -/
theorem pasteHandler_confirm_declined_witness :
    pasteHandler (some ⟨"https://example.com/image.jpg"⟩) DEFAULT_SETTINGS false
      ⟨[], []⟩ (Except.ok ⟨true, "OK", [1]⟩) (Except.ok ()) "2025-01-02T03:04:05.678Z"
      = (⟨[], []⟩, [UIEvent.preventDefault, UIEvent.confirmPrompt]) :=
  (pasteHandler_confirm_declined (some ⟨"https://example.com/image.jpg"⟩)
    DEFAULT_SETTINGS ⟨[], []⟩ (Except.ok ⟨true, "OK", [1]⟩) (Except.ok ())
    "2025-01-02T03:04:05.678Z" "https://example.com/image.jpg" rfl rfl rfl).1

/-- C5: each placeholder is substituted at most once — only its first
occurrence — so in a template that contains the same placeholder twice the
second occurrence survives literally. -/
theorem substitutePlaceholders_first_occurrence
    (n ts d : List Char) (hn : '{' ∉ n) (hts : '{' ∉ ts) :
    substitutePlaceholders "{name}-{name}" n ts d = n ++ "-{name}".data
    ∧ substitutePlaceholders "{timestamp}-{timestamp}" n ts d = ts ++ "-{timestamp}".data
    ∧ substitutePlaceholders "{date}-{date}" n ts d = d ++ "-{date}".data := by
  refine ⟨?_, ?_, ?_⟩
  · have e1 : replaceFirst "{name}".data n ("{name}-{name}" : String).data
        = n ++ "-{name}".data := rfl
    unfold substitutePlaceholders
    rw [e1,
      replaceFirst_of_not_infix ts (@not_infix_append_of_head_brace
        "{timestamp}".data "-{name}".data rfl (by decide) n hn),
      replaceFirst_of_not_infix d (@not_infix_append_of_head_brace
        "{date}".data "-{name}".data rfl (by decide) n hn)]
  · have e1 : replaceFirst "{timestamp}".data ts
        (replaceFirst "{name}".data n ("{timestamp}-{timestamp}" : String).data)
        = ts ++ "-{timestamp}".data := rfl
    unfold substitutePlaceholders
    rw [e1,
      replaceFirst_of_not_infix d (@not_infix_append_of_head_brace
        "{date}".data "-{timestamp}".data rfl (by decide) ts hts)]
  · rfl

/-- Witness for C5: the cleaned stem `image` in a doubled template. -/
theorem substitutePlaceholders_first_occurrence_witness :
    substitutePlaceholders "{name}-{name}" "image".data "T".data "D".data
      = "image".data ++ "-{name}".data :=
  (substitutePlaceholders_first_occurrence "image".data "T".data "D".data
    (by decide) (by decide)).1

/-- C6 counterexample: for a URL whose last path segment starts with the
percent sequence, the leading hyphen produced from `%` is trimmed away, so
the cleaned stem does not contain the residue `-20` that the claim promises
for every URL with a percent-encoded sequence. -/
theorem cleanFilename_leading_percent_counterexample :
    cleanFilename "%20x".data = "20x".data
    ∧ ¬ "-20".data <:+: cleanFilename "%20x".data
    ∧ generateUserFriendlyFilename "https://example.com/%20x.jpg"
        { DEFAULT_SETTINGS with useTimestamp := false } "2025-01-02T03:04:05.678Z"
      = some "20x.jpg" := ⟨rfl, by decide, rfl⟩

/-- C6 (amended): no percent-decoding takes place before cleaning.  Whenever
the percent sequence is preceded by at least one alphanumeric character in
the stem, the hyphen-plus-digits residue `-20` appears literally in the
cleaned stem (only a sequence at the very start of the stem loses its hyphen
to leading-hyphen trimming); in particular `my%20image.jpg` yields the stem
`my-20image` and the filename `my-20image.jpg`. -/
theorem cleanFilename_percent_residue (a b : List Char) (now : String) (hne : a ≠ [])
    (ha : a.all isAlnumChar = true) (hb : b.all isAlnumChar = true) :
    cleanFilename (a ++ '%' :: '2' :: '0' :: b)
      = (a ++ '-' :: '2' :: '0' :: b).map Char.toLower
    ∧ "-20".data <:+: cleanFilename (a ++ '%' :: '2' :: '0' :: b)
    ∧ generateUserFriendlyFilename "https://example.com/my%20image.jpg"
        { DEFAULT_SETTINGS with useTimestamp := false } now = some "my-20image.jpg" := by
  refine ⟨cleanFilename_percent_eq hne ha hb, ?_, rfl⟩
  rw [cleanFilename_percent_eq hne ha hb, List.map_append]
  have hm : ('-' :: '2' :: '0' :: b).map Char.toLower
      = '-' :: '2' :: '0' :: b.map Char.toLower := rfl
  exact ⟨a.map Char.toLower, b.map Char.toLower, by rw [hm]; simp⟩

/-- Witness for C6 (amended) at the stem `my%20image`. -/
theorem cleanFilename_percent_residue_witness :
    cleanFilename "my%20image".data = "my-20image".data :=
  (cleanFilename_percent_residue "my".data "image".data "2025-01-02T03:04:05.678Z"
    (by decide) (by decide) (by decide)).1

/-- C7 counterexample: for a last path segment with no dot the extension does
not default to `jpg` — the whole segment becomes the extension and the
emptied stem falls back to `image`, so `/photo` yields `image.photo`, which
does not end in `.jpg`. -/
theorem generateFilename_missing_dot_counterexample :
    generateUserFriendlyFilename "https://example.com/photo"
        { DEFAULT_SETTINGS with useTimestamp := false } "2025-01-02T03:04:05.678Z"
      = some "image.photo"
    ∧ (".jpg".data.isSuffixOf "image.photo".data) = false := ⟨rfl, by decide⟩

/-- C7 (amended): the extension is `split('.').pop().toLowerCase()` of the
last segment, with `jpg` used only when that pop result is empty.  When the
segment contains a dot and a non-empty part after the last dot, that part
lower-cased is the extension; when the segment contains no dot, the whole
lower-cased segment becomes the extension (and the stem, emptied by the
extension strip, falls back to `image`); a segment ending in a dot pops the
empty string and gets the `jpg` default. -/
theorem extractExtension_rule :
    (∀ a b : List Char, b ≠ [] → '.' ∉ b →
        extractExtension (a ++ '.' :: b) = b.map Char.toLower)
    ∧ (∀ filename : List Char, filename ≠ [] → '.' ∉ filename →
        extractExtension filename = filename.map Char.toLower)
    ∧ (∀ now : String,
        generateUserFriendlyFilename "https://example.com/photo.JPeG"
          { DEFAULT_SETTINGS with useTimestamp := false } now = some "photo.jpeg")
    ∧ (∀ now : String,
        generateUserFriendlyFilename "https://example.com/photo"
          { DEFAULT_SETTINGS with useTimestamp := false } now = some "image.photo")
    ∧ (∀ now : String,
        generateUserFriendlyFilename "https://example.com/photo."
          { DEFAULT_SETTINGS with useTimestamp := false } now = some "ph.jpg") :=
  ⟨fun _ _ h1 h2 => extractExtension_after_last_dot h1 h2,
    fun _ h1 h2 => extractExtension_no_dot h1 h2,
    fun _ => rfl, fun _ => rfl, fun _ => rfl⟩

/-- Witness for C7 (amended) at concrete segments. -/
theorem extractExtension_rule_witness :
    extractExtension "photo.JPeG".data = "jpeg".data
    ∧ extractExtension "photo".data = "photo".data := by
  constructor
  · exact extractExtension_rule.1 "photo".data "JPeG".data (by decide) (by decide)
  · exact extractExtension_rule.2.1 "photo".data (by decide) (by decide)
